import Mathlib

/-!
Verification of the Networked-Battleships-Game repository.

The definitions below are shallow embeddings of the Python sources:
  * `battleship.py` — the `Board` class (`fire_at`, `_mark_hit_and_check_sunk`,
    `all_ships_sunk`, `can_place_ship`, `do_place_ship`, `serialize`,
    `deserialize`), `parse_coordinate`, `recv_from_player_with_timeout`, and the
    turn loop of `run_two_player_game`;
  * `protocol.py` — `get_next_sequence_number`, `calculate_checksum` (CRC-32),
    AES-CTR payload transformation, `create_packet`, `decode_header`,
    `verify_packet`, and the decoding pipeline of `receive_packet`.

Python machine-level details are modelled explicitly: bytes are `Nat` values
`< 256`, the 32-bit sequence counter uses explicit `%`, grids are lists of
lists of characters, Python `set`s of coordinates are `Finset (ℕ × ℕ)`, and
raised exceptions become `Except` / sum results.
-/

namespace Battleships

/-! ## Grid primitives

`hidden_grid` / `display_grid` are Python lists of lists of 1-character
strings.  We model them as `List (List Char)`.  Reads out of range are given
the sentinel `'?'` (Python would raise `IndexError`; no in-bounds execution
path can observe `'?'`). -/

abbrev Grid := List (List Char)

def cellAt (g : Grid) (r c : Nat) : Char :=
  (g.getD r []).getD c '?'

/-- `g[r][c] = ch` (a no-op when out of range, matching `List.set`). -/
def setCell (g : Grid) (r c : Nat) (ch : Char) : Grid :=
  g.set r ((g.getD r []).set c ch)

/-- The grid is an `n × n` matrix. -/
def GridWF (n : Nat) (g : Grid) : Prop :=
  g.length = n ∧ ∀ row ∈ g, row.length = n

/-! ## Board data model (`battleship.py`, class `Board`) -/

/-- One entry of `Board.placed_ships`: `{'name': ..., 'positions': set of (r, c)}`. -/
structure Ship where
  name : String
  positions : Finset (ℕ × ℕ)
deriving DecidableEq

structure Board where
  size : ℕ
  hidden_grid : Grid
  display_grid : Grid
  placed_ships : List Ship
deriving DecidableEq

/-- `Board.__init__(size)`: two `size × size` grids of `'.'`, no ships. -/
def mkBoard (n : ℕ) : Board :=
  { size := n
    hidden_grid := List.replicate n (List.replicate n '.')
    display_grid := List.replicate n (List.replicate n '.')
    placed_ships := [] }

/-- `Board.can_place_ship(row, col, ship_size, orientation)`:
orientation `0` is horizontal, anything else vertical; the segment must fit
inside the board and every covered cell must be `'.'`. -/
def can_place_ship (b : Board) (row col shipSize orientation : ℕ) : Bool :=
  if orientation = 0 then
    decide (col + shipSize ≤ b.size) &&
      (List.range shipSize).all (fun k => cellAt b.hidden_grid row (col + k) == '.')
  else
    decide (row + shipSize ≤ b.size) &&
      (List.range shipSize).all (fun k => cellAt b.hidden_grid (row + k) col == '.')

/-- The cells covered by a ship placed at `(row, col)`. -/
def shipCells (row col shipSize orientation : ℕ) : List (ℕ × ℕ) :=
  if orientation = 0 then (List.range shipSize).map (fun k => (row, col + k))
  else (List.range shipSize).map (fun k => (row + k, col))

/-- `Board.do_place_ship`: mark every covered cell `'S'` on `hidden_grid` and
return the set of occupied positions. -/
def do_place_ship (b : Board) (row col shipSize orientation : ℕ) :
    Board × Finset (ℕ × ℕ) :=
  let cells := shipCells row col shipSize orientation
  ({ b with hidden_grid := cells.foldl (fun g p => setCell g p.1 p.2 'S') b.hidden_grid },
   cells.toFinset)

/-- A requested placement (ship name, start coordinate, length, orientation). -/
structure Placement where
  shipName : String
  row : ℕ
  col : ℕ
  len : ℕ
  orientation : ℕ
deriving DecidableEq

/-- One guarded placement as performed by `place_ships_randomly`,
`place_ships_manually` and `handle_ship_placement`: `do_place_ship` plus the
`placed_ships.append(...)` is executed only when `can_place_ship` holds. -/
def placeShip (b : Board) (p : Placement) : Board :=
  if can_place_ship b p.row p.col p.len p.orientation then
    let res := do_place_ship b p.row p.col p.len p.orientation
    { res.1 with placed_ships := res.1.placed_ships ++ [⟨p.shipName, res.2⟩] }
  else b

def applyPlacements (b : Board) (ps : List Placement) : Board :=
  ps.foldl placeShip b

/-- `Board._mark_hit_and_check_sunk(row, col)`: remove the coordinate from the
first ship whose position set contains it (then `break`); report the ship's
name iff its position set became empty. -/
def markHitAndCheckSunk : List Ship → ℕ × ℕ → List Ship × Option String
  | [], _ => ([], none)
  | s :: rest, q =>
    if q ∈ s.positions then
      let s' : Ship := ⟨s.name, s.positions.erase q⟩
      (s' :: rest, if s'.positions.card = 0 then some s.name else none)
    else
      let r := markHitAndCheckSunk rest q
      (s :: r.1, r.2)

inductive FireResult where
  | hit
  | miss
  | already_shot
  | invalid
deriving DecidableEq

/-- `Board.fire_at(row, col)`, returning `(result, sunk_ship_name, new board)`.
Python's `if sunk_ship_name:` is truthiness on a string, so an empty ship name
is reported as `None`. -/
def fire_at (b : Board) (row col : ℤ) : FireResult × Option String × Board :=
  if row < 0 ∨ (b.size : ℤ) ≤ row ∨ col < 0 ∨ (b.size : ℤ) ≤ col then
    (.invalid, none, b)
  else if cellAt b.hidden_grid row.toNat col.toNat = 'S' then
    (.hit,
     (match (markHitAndCheckSunk b.placed_ships (row.toNat, col.toNat)).2 with
      | some nm => if nm = "" then none else some nm
      | none => none),
     { b with hidden_grid := setCell b.hidden_grid row.toNat col.toNat 'X'
              display_grid := setCell b.display_grid row.toNat col.toNat 'X'
              placed_ships := (markHitAndCheckSunk b.placed_ships (row.toNat, col.toNat)).1 })
  else if cellAt b.hidden_grid row.toNat col.toNat = '.' then
    (.miss, none,
      { b with hidden_grid := setCell b.hidden_grid row.toNat col.toNat 'o'
               display_grid := setCell b.display_grid row.toNat col.toNat 'o' })
  else
    (.already_shot, none, b)

/-- `Board.all_ships_sunk()`: every ship's position set is empty. -/
def all_ships_sunk (b : Board) : Bool :=
  b.placed_ships.all (fun s => s.positions.card == 0)

/-- The board after a sequence of `fire_at` calls. -/
def fireMany (b : Board) (shots : List (ℤ × ℤ)) : Board :=
  shots.foldl (fun bb q => (fire_at bb q.1 q.2).2.2) b

/-- The union of all recorded ship positions (for a freshly placed board these
are exactly the cells `do_place_ship` marked `'S'`). -/
def initCells (b : Board) : Finset (ℕ × ℕ) :=
  b.placed_ships.foldr (fun s acc => s.positions ∪ acc) ∅

/-- An interleaved board-mutating action: a guarded placement or a shot. -/
inductive GameAction where
  | place (p : Placement)
  | fire (row col : ℤ)

def applyAction (b : Board) : GameAction → Board
  | .place p => placeShip b p
  | .fire r c => (fire_at b r c).2.2

def applyActions (b : Board) (acts : List GameAction) : Board :=
  acts.foldl applyAction b

/-! ## Serialization (`Board.serialize` / `Board.deserialize`) -/

/-- One entry of the serialized `placed_ships` list: the position set flattened
to a list of `[r, c]` lists (`[list(pos) for pos in ship['positions']]`). -/
structure SerializedShip where
  name : String
  positions : List (List ℕ)
deriving DecidableEq

/-- The dictionary returned by `Board.serialize`. -/
structure SerializedBoard where
  size : ℕ
  hidden_grid : Grid
  display_grid : Grid
  placed_ships : List SerializedShip
deriving DecidableEq

/-- A computable enumeration of a position set (Python iterates the `set` in
an unspecified order; we fix a concrete one). -/
def positionsList (s : Finset (ℕ × ℕ)) : List (ℕ × ℕ) :=
  ((s.image (fun p => Nat.pair p.1 p.2)).sort (· ≤ ·)).map Nat.unpair

def Board.serialize (b : Board) : SerializedBoard :=
  { size := b.size
    hidden_grid := b.hidden_grid
    display_grid := b.display_grid
    placed_ships :=
      b.placed_ships.map
        (fun s => ⟨s.name, (positionsList s.positions).map (fun p => [p.1, p.2])⟩) }

/-- `Board.deserialize`: a fresh `Board(size)` whose grids and ships are
overwritten from the dictionary; each `[r, c]` list becomes a tuple again and
the lists are collected back into sets. -/
def Board.deserialize (d : SerializedBoard) : Board :=
  { size := d.size
    hidden_grid := d.hidden_grid
    display_grid := d.display_grid
    placed_ships :=
      d.placed_ships.map
        (fun sd => ⟨sd.name, (sd.positions.map (fun l => (l.getD 0 0, l.getD 1 0))).toFinset⟩) }

/-! ## Coordinate parsing (`parse_coordinate`) -/

def BOARD_SIZE : ℕ := 10

/-- Python `str.strip()`: drop leading and trailing whitespace. -/
def stripStr (s : String) : String :=
  ⟨((s.data.dropWhile Char.isWhitespace).reverse.dropWhile Char.isWhitespace).reverse⟩

/-- Python `str.upper()` (ASCII range, which is all the game uses). -/
def upperStr (s : String) : String :=
  ⟨s.data.map Char.toUpper⟩

/-- Python `str.lower()` (ASCII range). -/
def lowerStr (s : String) : String :=
  ⟨s.data.map Char.toLower⟩

def digitsToNat (ds : List Char) : ℕ :=
  ds.foldl (fun a c => a * 10 + (c.toNat - 48)) 0

/-- `parse_coordinate(coord_str)`: strip and upper-case, demand a letter
followed by digits, read the column as a 1-based number and the row as
`ord(letter) - ord('A')`, and range-check both against `BOARD_SIZE`. -/
def parse_coordinate (s : String) : Except String (ℕ × ℕ) :=
  let t := upperStr (stripStr s)
  match t.data with
  | [] => .error "Coordinate cannot be empty"
  | c0 :: rest =>
    if ¬ c0.isAlpha then .error "Coordinate must start with a letter (A-J)"
    else if rest.isEmpty ∨ ¬ rest.all Char.isDigit then
      .error "Coordinate must have a number after the letter"
    else
      let colNum := digitsToNat rest
      if colNum < 1 ∨ colNum > BOARD_SIZE then
        .error "Column must be a number between 1 and 10"
      else
        let row : ℤ := (c0.toNat : ℤ) - 65
        let col : ℤ := (colNum : ℤ) - 1
        if row < 0 ∨ (BOARD_SIZE : ℤ) ≤ row then
          .error "Row must be a letter between A and J"
        else if col < 0 ∨ (BOARD_SIZE : ℤ) ≤ col then
          .error "Column must be a number between 1 and 10"
        else
          .ok (row.toNat, col.toNat)

/-! ## Invariant predicates used by the theorems -/

/-- Every in-bounds cell of `hidden_grid` holds one of the four cell values. -/
def CellsOK (b : Board) : Prop :=
  ∀ r c, r < b.size → c < b.size →
    cellAt b.hidden_grid r c = '.' ∨ cellAt b.hidden_grid r c = 'S' ∨
    cellAt b.hidden_grid r c = 'X' ∨ cellAt b.hidden_grid r c = 'o'

/-- No coordinate belongs to two distinct entries of `placed_ships`. -/
def ShipsDisjoint (l : List Ship) : Prop :=
  List.Pairwise (fun s t => ∀ q : ℕ × ℕ, q ∈ s.positions → q ∉ t.positions) l

/-- Invariant of a freshly placed board: well-formed `size × size` grids, and
`hidden_grid` holds `'S'` exactly at coordinates recorded in some placed ship,
with pairwise-disjoint ships. -/
def PlacedInv (n : ℕ) (b : Board) : Prop :=
  b.size = n ∧ GridWF n b.hidden_grid ∧ GridWF n b.display_grid ∧
  (∀ p : ℕ × ℕ, cellAt b.hidden_grid p.1 p.2 = 'S' ↔
      ∃ s ∈ b.placed_ships, p ∈ s.positions) ∧
  ShipsDisjoint b.placed_ships

/-- Invariant maintained by `fire_at` relative to the set `I` of initially
placed cells: `'S'` cells are exactly the remaining ship positions, initially
placed cells are `'S'` or `'X'`, remaining positions all come from `I`, and
ships stay pairwise disjoint. -/
def FireInv (n : ℕ) (I : Finset (ℕ × ℕ)) (b : Board) : Prop :=
  b.size = n ∧ GridWF n b.hidden_grid ∧ GridWF n b.display_grid ∧
  (∀ p : ℕ × ℕ, cellAt b.hidden_grid p.1 p.2 = 'S' ↔
      ∃ s ∈ b.placed_ships, p ∈ s.positions) ∧
  (∀ p ∈ I, cellAt b.hidden_grid p.1 p.2 = 'S' ∨ cellAt b.hidden_grid p.1 p.2 = 'X') ∧
  (∀ s ∈ b.placed_ships, ∀ p ∈ s.positions, p ∈ I) ∧
  ShipsDisjoint b.placed_ships

/-- Relation between `display_grid` and `hidden_grid` at one cell: hits and
misses agree, everything else shows as unknown `'.'`. -/
def DisplayCellOK (b : Board) (r c : ℕ) : Prop :=
  (cellAt b.display_grid r c = 'X' ↔ cellAt b.hidden_grid r c = 'X') ∧
  (cellAt b.display_grid r c = 'o' ↔ cellAt b.hidden_grid r c = 'o') ∧
  (cellAt b.display_grid r c ≠ 'X' → cellAt b.display_grid r c ≠ 'o' →
    cellAt b.display_grid r c = '.')

/-- Invariant for the display/hidden relation of a reachable board. -/
def DispInv (n : ℕ) (b : Board) : Prop :=
  b.size = n ∧ GridWF n b.hidden_grid ∧ GridWF n b.display_grid ∧
  ∀ r c, r < n → c < n → DisplayCellOK b r c

/-! ## Session engine fragments (`battleship.py`) -/

/-- What the socket delivered inside `recv_from_player_with_timeout`:
`select` timed out, `readline` returned `''` (peer closed), or a line. -/
inductive RecvOutcome where
  | timeout
  | closed
  | line (s : String)

/-- `recv_from_player_with_timeout` on a socket (`fileno` path): a timeout or a
closed connection raises `PlayerDisconnectedError` (`.error ()`); otherwise the
stripped line is returned.  The Python return type is loose enough to hold
`None`, hence `Option String`, but no path returns it. -/
def recv_from_player_with_timeout : RecvOutcome → Except Unit (Option String)
  | .timeout => .error ()
  | .closed => .error ()
  | .line s => .ok (some (stripStr s))

inductive PlacementChoice where
  | aborted
  | defaultedRandom
  | manualMode
  | randomMode
deriving DecidableEq

/-- The placement-mode prompt of `handle_ship_placement`: receive a choice
(re-raising `PlayerDisconnectedError`), take the `if choice is None` default,
else dispatch on the upper-cased first character (`'M'` manual, anything else
random). -/
def placementModeStep (input : RecvOutcome) : PlacementChoice :=
  match recv_from_player_with_timeout input with
  | .error _ => .aborted
  | .ok none => .defaultedRandom
  | .ok (some choice) =>
    match (upperStr choice).data with
    | [] => .randomMode
    | c :: _ => if c = 'M' then .manualMode else .randomMode

/-- Outcome of one turn-loop iteration of `run_two_player_game`
(after a guess has been received). -/
inductive TurnOutcome where
  | quitGame
  | winGame
  | continueWith (nextIsPlayer1 : Bool)
deriving DecidableEq

/-- One iteration of the turn loop of `run_two_player_game`, from the received
`guess` onward: `quit` ends the game; a coordinate that fails to parse, or a
shot answered `already_shot` / `invalid`, `continue`s with the same player; a
`hit` that sinks the last ship wins; otherwise `miss` / `hit` pass the turn to
the opponent.  Returns the next mover and the opponent's updated board. -/
def turnStep (curIsP1 : Bool) (oppBoard : Board) (guess : String) :
    TurnOutcome × Board :=
  if lowerStr guess = "quit" then (.quitGame, oppBoard)
  else
    match parse_coordinate guess with
    | .error _ => (.continueWith curIsP1, oppBoard)
    | .ok (row, col) =>
      let fr := fire_at oppBoard (row : ℤ) (col : ℤ)
      match fr.1 with
      | .hit =>
        if all_ships_sunk fr.2.2 then (.winGame, fr.2.2)
        else (.continueWith (!curIsP1), fr.2.2)
      | .miss => (.continueWith (!curIsP1), fr.2.2)
      | .already_shot => (.continueWith curIsP1, fr.2.2)
      | .invalid => (.continueWith curIsP1, fr.2.2)

end Battleships

namespace Protocol

/-! ## Packet protocol (`protocol.py`)

Bytes are `Nat` values `< 256`; byte strings are `List ℕ`. -/

def MAGIC_NUMBER : ℕ := 0x42534850
def HEADER_SIZE : ℕ := 17
def IV_SIZE : ℕ := 16

/-- Big-endian 4-byte encoding of a 32-bit value (`struct.pack(">I", n)`). -/
def toBytesBE4 (n : ℕ) : List ℕ :=
  [n / 2 ^ 24 % 256, n / 2 ^ 16 % 256, n / 2 ^ 8 % 256, n % 256]

/-- Big-endian byte-list decoding (`struct.unpack(">I", ...)`). -/
def fromBytesBE (bs : List ℕ) : ℕ :=
  bs.foldl (fun acc b => acc * 256 + b) 0

/-- One step of the bitwise CRC-32 with reflected polynomial `0xEDB88320`. -/
def crc32Round (c : ℕ) : ℕ :=
  if c % 2 = 1 then Nat.xor (c / 2) 0xEDB88320 else c / 2

def crc32UpdateByte (c b : ℕ) : ℕ :=
  crc32Round^[8] (Nat.xor c (b % 256))

/-- `binascii.crc32`: IEEE CRC-32, initial value and final xor `0xFFFFFFFF`. -/
def crc32 (data : List ℕ) : ℕ :=
  Nat.xor (data.foldl crc32UpdateByte 0xFFFFFFFF) 0xFFFFFFFF

/-- `calculate_checksum(data)`: CRC-32 masked to 32 bits. -/
def calculate_checksum (data : List ℕ) : ℕ :=
  crc32 data % 2 ^ 32

/-- An AES-256-CTR keystream for the fixed `PRE_SHARED_KEY`, as a function of
the IV and the byte position.  The AES block cipher itself is external library
code; every theorem below holds for an arbitrary keystream function. -/
abbrev Keystream := List ℕ → ℕ → ℕ

/-- CTR-mode byte transformation: XOR the data with the keystream starting at
position `i`.  Both `_encrypt_payload` and `_decrypt_payload` are this map. -/
def ctrXor (ks : ℕ → ℕ) : ℕ → List ℕ → List ℕ
  | _, [] => []
  | i, b :: rest => (b ^^^ ks i % 256) :: ctrXor ks (i + 1) rest

/-- `get_next_sequence_number`'s counter update:
`next_sequence_number = (next_sequence_number + 1) % 0xFFFFFFFF`. -/
def next_sequence_state (s : ℕ) : ℕ :=
  (s + 1) % 0xFFFFFFFF

/-- `create_packet(packet_type, payload)` with the global counter state and the
random IV made explicit.  Returns the packet bytes and the new counter state:
header prefix (magic, seq, type, data length), CRC-32 checksum, IV, and the
encrypted payload. -/
def create_packet (ks : Keystream) (packet_type : ℕ) (payload : List ℕ)
    (iv : List ℕ) (ctr : ℕ) : List ℕ × ℕ :=
  let seq_num := ctr
  let encrypted_payload := ctrXor (ks iv) 0 payload
  let data_length := IV_SIZE + encrypted_payload.length
  let headerFields :=
    toBytesBE4 MAGIC_NUMBER ++ toBytesBE4 seq_num ++ [packet_type] ++ toBytesBE4 data_length
  let checksum := calculate_checksum (headerFields ++ iv ++ encrypted_payload)
  (headerFields ++ toBytesBE4 checksum ++ iv ++ encrypted_payload,
   next_sequence_state ctr)

/-- `decode_header(header_bytes)`: split 17 bytes into
`(magic, seq, ptype, dlen, checksum)`; wrong length raises `ValueError`. -/
def decode_header (h : List ℕ) : Option (ℕ × ℕ × ℕ × ℕ × ℕ) :=
  if h.length = HEADER_SIZE then
    some (fromBytesBE (h.take 4), fromBytesBE ((h.drop 4).take 4), h.getD 8 0,
          fromBytesBE ((h.drop 9).take 4), fromBytesBE (h.drop 13))
  else none

/-- `verify_packet(packet_bytes)`: check minimum length, magic number, payload
length and CRC-32 checksum; on success return the decoded header info and the
`IV + encrypted payload` bytes. -/
def verify_packet (pkt : List ℕ) : Option ((ℕ × ℕ × ℕ × ℕ) × List ℕ) :=
  if pkt.length < HEADER_SIZE + IV_SIZE then none
  else
    match decode_header (pkt.take HEADER_SIZE) with
    | none => none
    | some (magic, seq, ptype, dlen, received_checksum) =>
      let iv_plus_encrypted := pkt.drop HEADER_SIZE
      if magic ≠ MAGIC_NUMBER then none
      else if iv_plus_encrypted.length ≠ dlen then none
      else if calculate_checksum (pkt.take 13 ++ iv_plus_encrypted) ≠ received_checksum then
        none
      else some ((magic, seq, ptype, dlen), iv_plus_encrypted)

/-- The decoding pipeline of `receive_packet` once the raw bytes are in hand:
reject a data length smaller than the IV, run `verify_packet`, split off the
IV, decrypt, and report the header with the decrypted payload's length. -/
def receive_packet_decode (ks : Keystream) (pkt : List ℕ) :
    Option ((ℕ × ℕ × ℕ × ℕ) × List ℕ) :=
  match decode_header (pkt.take HEADER_SIZE) with
  | none => none
  | some (_, _, _, dlen, _) =>
    if dlen < IV_SIZE then none
    else
      match verify_packet pkt with
      | none => none
      | some ((magic, seq, ptype, _), iv_plus_encrypted) =>
        let iv := iv_plus_encrypted.take IV_SIZE
        let encrypted_actual := iv_plus_encrypted.drop IV_SIZE
        let decrypted := ctrXor (ks iv) 0 encrypted_actual
        some ((magic, seq, ptype, decrypted.length), decrypted)

/-- The sequence-number field of a packet (bytes 4..8 of the header). -/
def seqOf (pkt : List ℕ) : ℕ :=
  fromBytesBE ((pkt.drop 4).take 4)

end Protocol

open Battleships Protocol

/-! ## List and grid lemmas -/

theorem getD_set_eq_ite {α : Type} (l : List α) (i j : ℕ) (a d : α) :
    (l.set i a).getD j d = if i = j ∧ j < l.length then a else l.getD j d := by
  induction l generalizing i j with
  | nil => simp
  | cons x xs ih =>
    cases i with
    | zero =>
      cases j with
      | zero => simp
      | succ j => simp
    | succ i =>
      cases j with
      | zero => simp
      | succ j => simpa [Nat.succ_lt_succ_iff] using ih i j

theorem getD_mem {α : Type} (l : List α) (i : ℕ) (d : α) (h : i < l.length) :
    l.getD i d ∈ l := by
  induction l generalizing i with
  | nil => simp at h
  | cons x xs ih =>
    cases i with
    | zero => simp
    | succ i => exact List.mem_cons_of_mem x (ih i (by simpa using h))

theorem cellAt_setCell (g : Grid) (r0 c0 : ℕ) (ch : Char) (r c : ℕ) :
    cellAt (setCell g r0 c0 ch) r c =
      if r0 = r ∧ c0 = c ∧ r < g.length ∧ c < (g.getD r []).length then ch
      else cellAt g r c := by
  unfold cellAt setCell
  rw [getD_set_eq_ite]
  by_cases hr : r0 = r ∧ r < g.length
  · obtain ⟨rfl, hrlt⟩ := hr
    rw [if_pos ⟨rfl, hrlt⟩, getD_set_eq_ite]
    by_cases hc : c0 = c ∧ c < (g.getD r0 []).length
    · rw [if_pos hc, if_pos ⟨rfl, hc.1, hrlt, hc.2⟩]
    · rw [if_neg hc, if_neg (fun h => hc ⟨h.2.1, h.2.2.2⟩)]
  · rw [if_neg hr, if_neg (fun h => hr ⟨h.1, h.2.2.1⟩)]

theorem length_setCell (g : Grid) (r0 c0 : ℕ) (ch : Char) :
    (setCell g r0 c0 ch).length = g.length := by
  simp [setCell]

theorem length_getD_setCell (g : Grid) (r0 c0 : ℕ) (ch : Char) (r : ℕ) :
    ((setCell g r0 c0 ch).getD r []).length = (g.getD r []).length := by
  unfold setCell
  rw [getD_set_eq_ite]
  split
  · next h => simp [List.length_set, h.1]
  · rfl

theorem set_eq_self_of_le {α : Type} (l : List α) (i : ℕ) (a : α) (h : l.length ≤ i) :
    l.set i a = l := by
  induction l generalizing i with
  | nil => rfl
  | cons x xs ih =>
    cases i with
    | zero => simp at h
    | succ i => simp only [List.set_cons_succ, ih i (by simpa using h)]

theorem gridWF_setCell {n : ℕ} {g : Grid} (h : GridWF n g) (r c : ℕ) (ch : Char) :
    GridWF n (setCell g r c ch) := by
  obtain ⟨hlen, hrows⟩ := h
  by_cases hr : r < g.length
  · refine ⟨by simp [setCell, hlen], ?_⟩
    intro row hrow
    rcases List.mem_or_eq_of_mem_set hrow with h' | rfl
    · exact hrows _ h'
    · rw [List.length_set]
      exact hrows _ (getD_mem g r [] hr)
  · have hid : setCell g r c ch = g :=
      set_eq_self_of_le g r _ (le_of_not_lt hr)
    rw [hid]
    exact ⟨hlen, hrows⟩

/-- In-bounds cells of a well-formed grid can be addressed: `cellAt` reads the
stored entry and `setCell` overwrites exactly it. -/
theorem cellAt_setCell_self {n : ℕ} {g : Grid} (h : GridWF n g) {r c : ℕ}
    (hr : r < n) (hc : c < n) (ch : Char) :
    cellAt (setCell g r c ch) r c = ch := by
  rw [cellAt_setCell, if_pos]
  exact ⟨rfl, rfl, by rw [h.1]; exact hr,
    by rw [h.2 _ (getD_mem g r [] (by rw [h.1]; exact hr))]; exact hc⟩

theorem cellAt_setCell_ne (g : Grid) (r0 c0 : ℕ) (ch : Char) {r c : ℕ}
    (h : ¬ (r0 = r ∧ c0 = c)) :
    cellAt (setCell g r0 c0 ch) r c = cellAt g r c := by
  rw [cellAt_setCell, if_neg (fun hh => h ⟨hh.1, hh.2.1⟩)]

theorem cellAt_mkBoard (n : ℕ) (r c : ℕ) (hr : r < n) (hc : c < n) :
    cellAt (mkBoard n).hidden_grid r c = '.' := by
  simp [mkBoard, cellAt, List.getD_eq_getElem?_getD, List.getElem?_replicate, hr, hc]

theorem gridWF_mkBoard (n : ℕ) : GridWF n (mkBoard n).hidden_grid := by
  constructor
  · simp [mkBoard]
  · intro row hrow
    have heq : row = List.replicate n '.' :=
      List.eq_of_mem_replicate (show row ∈ List.replicate n (List.replicate n '.') by
        simpa [mkBoard] using hrow)
    rw [heq]
    simp

/-! ## Lemmas about `_mark_hit_and_check_sunk` -/

theorem markHit_not_mem (l : List Ship) (q : ℕ × ℕ) (h : ∀ s ∈ l, q ∉ s.positions) :
    markHitAndCheckSunk l q = (l, none) := by
  induction l with
  | nil => rfl
  | cons s rest ih =>
    have hs : q ∉ s.positions := h s (List.mem_cons_self s rest)
    have hr : markHitAndCheckSunk rest q = (rest, none) :=
      ih (fun t ht => h t (List.mem_cons_of_mem s ht))
    simp [markHitAndCheckSunk, hs, hr]

theorem markHit_first (pre : List Ship) (s1 : Ship) (post : List Ship) (q : ℕ × ℕ)
    (hq : q ∈ s1.positions) (hpre : ∀ s ∈ pre, q ∉ s.positions) :
    markHitAndCheckSunk (pre ++ s1 :: post) q =
      (pre ++ (⟨s1.name, s1.positions.erase q⟩ : Ship) :: post,
       if (s1.positions.erase q).card = 0 then some s1.name else none) := by
  induction pre with
  | nil => simp [markHitAndCheckSunk, hq]
  | cons s pre ih =>
    have hs : q ∉ s.positions := hpre s (List.mem_cons_self s pre)
    have hrec := ih (fun t ht => hpre t (List.mem_cons_of_mem s ht))
    simp [markHitAndCheckSunk, hs, hrec]

theorem exists_first_ship (l : List Ship) (q : ℕ × ℕ) (h : ∃ s ∈ l, q ∈ s.positions) :
    ∃ pre s1 post, l = pre ++ s1 :: post ∧ q ∈ s1.positions ∧
      ∀ s ∈ pre, q ∉ s.positions := by
  induction l with
  | nil => simp at h
  | cons s rest ih =>
    by_cases hs : q ∈ s.positions
    · exact ⟨[], s, rest, rfl, hs, by simp⟩
    · have h' : ∃ t ∈ rest, q ∈ t.positions := by
        rcases h with ⟨t, ht, hqt⟩
        rcases List.mem_cons.mp ht with rfl | ht'
        · exact absurd hqt hs
        · exact ⟨t, ht', hqt⟩
      obtain ⟨pre, s1, post, rfl, hq1, hpre⟩ := ih h'
      refine ⟨s :: pre, s1, post, rfl, hq1, ?_⟩
      intro t ht
      rcases List.mem_cons.mp ht with rfl | ht'
      · exact hs
      · exact hpre t ht'

/-! ## C9: coordinate parser examples -/

/-- C9: `parse_coordinate "A1"` returns `(0, 0)`, `parse_coordinate "J10"`
returns `(9, 9)`, and parsing `"K1"`, `"A0"`, `"A11"` and `""` raises
`ValueError`. -/
theorem parse_coordinate_examples :
    (parse_coordinate "A1").toOption = some (0, 0) ∧
    (parse_coordinate "J10").toOption = some (9, 9) ∧
    (parse_coordinate "K1").isOk = false ∧
    (parse_coordinate "A0").isOk = false ∧
    (parse_coordinate "A11").isOk = false ∧
    (parse_coordinate "").isOk = false := by
  decide

/-! ## C10: error outcomes of `fire_at` are atomic -/

/-- C10: whenever `fire_at` answers `invalid` or `already_shot`, the board is
returned completely unchanged — grids and every ship's remaining set. -/
theorem fire_at_error_preserves_board (b : Board) (row col : ℤ)
    (h : (fire_at b row col).1 = FireResult.invalid ∨
         (fire_at b row col).1 = FireResult.already_shot) :
    (fire_at b row col).2.2 = b := by
  unfold fire_at at h ⊢
  split_ifs at h ⊢ with hb hS hdot
  · rfl
  · rcases h with h | h <;> simp at h
  · rcases h with h | h <;> simp at h
  · rfl

theorem fire_at_error_preserves_board_witness :
    ((fire_at (mkBoard 2) 5 0).1 = FireResult.invalid ∨
      (fire_at (mkBoard 2) 5 0).1 = FireResult.already_shot) ∧
    (fire_at (mkBoard 2) 5 0).2.2 = mkBoard 2 :=
  ⟨by decide, fire_at_error_preserves_board (mkBoard 2) 5 0 (by decide)⟩

/-! ## C6: board serialization round trip -/

theorem toFinset_positionsList (s : Finset (ℕ × ℕ)) :
    (positionsList s).toFinset = s := by
  ext p
  simp only [positionsList, List.mem_toFinset, List.mem_map, Finset.mem_sort,
    Finset.mem_image]
  constructor
  · rintro ⟨n, ⟨q, hq, rfl⟩, rfl⟩
    simpa [Nat.unpair_pair] using hq
  · intro hp
    exact ⟨Nat.pair p.1 p.2, ⟨p, hp, rfl⟩, by simp [Nat.unpair_pair]⟩

/-- C6: `Board.deserialize (b.serialize())` restores `b` exactly — same size,
same grids, same placed ships with equal names and remaining sets — hence
`fire_at` behaves identically on the restored board at every coordinate. -/
theorem board_serialize_roundtrip (b : Board) :
    Board.deserialize (Board.serialize b) = b ∧
    ∀ row col : ℤ, fire_at (Board.deserialize (Board.serialize b)) row col =
      fire_at b row col := by
  have hship : ∀ s : Ship,
      (⟨s.name, (((positionsList s.positions).map (fun p => [p.1, p.2])).map
          (fun l => (l.getD 0 0, l.getD 1 0))).toFinset⟩ : Ship) = s := by
    intro s
    have h1 : ((positionsList s.positions).map (fun p => [p.1, p.2])).map
        (fun l => (l.getD 0 0, l.getD 1 0)) = positionsList s.positions := by
      rw [List.map_map]
      conv_rhs => rw [← List.map_id (positionsList s.positions)]
      exact List.map_congr_left (fun p _ => rfl)
    rw [h1, toFinset_positionsList]
  have hmain : Board.deserialize (Board.serialize b) = b := by
    cases b with
    | mk size hg dg ships =>
      simp only [Board.deserialize, Board.serialize, List.map_map, Board.mk.injEq,
        true_and]
      conv_rhs => rw [← List.map_id ships]
      exact List.map_congr_left (fun s _ => hship s)
  exact ⟨hmain, fun row col => by rw [hmain]⟩

/-! ## C7: timeout during the setup phase -/

/-- C7 (code evaluation): a timeout at the placement-mode prompt makes
`recv_from_player_with_timeout` raise `PlayerDisconnectedError`, which
`handle_ship_placement` re-raises, aborting the session; the
`if choice is None` random-placement default is unreachable for every input. -/
theorem placement_timeout_aborts :
    placementModeStep RecvOutcome.timeout = PlacementChoice.aborted ∧
    ∀ input : RecvOutcome, placementModeStep input ≠ PlacementChoice.defaultedRandom := by
  refine ⟨rfl, fun input => ?_⟩
  cases input with
  | timeout => simp [placementModeStep, recv_from_player_with_timeout]
  | closed => simp [placementModeStep, recv_from_player_with_timeout]
  | line s =>
    simp only [placementModeStep, recv_from_player_with_timeout]
    rcases hcs : (upperStr (stripStr s)).data with _ | ⟨c, rest⟩
    · simp [hcs]
    · by_cases hc : c = 'M' <;> simp [hcs, hc]

/-! ## C1: specification of `fire_at` -/

/-- A board holding a single sunken-in-one-shot ship whose name is the empty
string, exercising Python's `if sunk_ship_name:` truthiness. -/
def emptyNameBoard : Board :=
  ⟨1, [['S']], [['.']], [⟨"", {(0, 0)}⟩]⟩

/-- C1 counterexample: firing at the only cell of `emptyNameBoard` is a hit
whose shot empties the remaining set of the (unique) ship containing the cell,
yet `fire_at` reports no sunk-ship name, because the ship's name `""` is falsy
in Python.  The original claim demands that the name be reported. -/
theorem fire_at_empty_name_counterexample :
    (fire_at emptyNameBoard 0 0).1 = FireResult.hit ∧
    emptyNameBoard.placed_ships = [⟨"", {(0, 0)}⟩] ∧
    (fire_at emptyNameBoard 0 0).2.2.placed_ships = [⟨"", ∅⟩] ∧
    (fire_at emptyNameBoard 0 0).2.1 = none ∧
    ¬ (fire_at emptyNameBoard 0 0).2.1 = some "" := by
  decide

/-- C1 (amended): on a well-formed board, `fire_at` answers `invalid` iff the
coordinate is out of bounds; in bounds it answers `already_shot` iff the cell
is `'X'` or `'o'`, `miss` iff the cell is `'.'` (then marking `'o'` in both
grids), and `hit` iff the cell is `'S'` (then marking `'X'` in both grids,
removing the coordinate from the first placed ship containing it — if any —
and reporting that ship's name iff its remaining set became empty and the name
is non-empty). -/
theorem fire_at_spec (b : Board) (row col : ℤ)
    (hWFh : GridWF b.size b.hidden_grid) (hWFd : GridWF b.size b.display_grid)
    (hcells : CellsOK b) :
    ((fire_at b row col).1 = FireResult.invalid ↔
      (row < 0 ∨ (b.size : ℤ) ≤ row ∨ col < 0 ∨ (b.size : ℤ) ≤ col)) ∧
    (¬ (row < 0 ∨ (b.size : ℤ) ≤ row ∨ col < 0 ∨ (b.size : ℤ) ≤ col) →
      ((fire_at b row col).1 = FireResult.already_shot ↔
        (cellAt b.hidden_grid row.toNat col.toNat = 'X' ∨
         cellAt b.hidden_grid row.toNat col.toNat = 'o')) ∧
      ((fire_at b row col).1 = FireResult.miss ↔
        cellAt b.hidden_grid row.toNat col.toNat = '.') ∧
      (cellAt b.hidden_grid row.toNat col.toNat = '.' →
        cellAt (fire_at b row col).2.2.hidden_grid row.toNat col.toNat = 'o' ∧
        cellAt (fire_at b row col).2.2.display_grid row.toNat col.toNat = 'o') ∧
      ((fire_at b row col).1 = FireResult.hit ↔
        cellAt b.hidden_grid row.toNat col.toNat = 'S') ∧
      (cellAt b.hidden_grid row.toNat col.toNat = 'S' →
        cellAt (fire_at b row col).2.2.hidden_grid row.toNat col.toNat = 'X' ∧
        cellAt (fire_at b row col).2.2.display_grid row.toNat col.toNat = 'X' ∧
        ((∀ s ∈ b.placed_ships, (row.toNat, col.toNat) ∉ s.positions) →
          (fire_at b row col).2.2.placed_ships = b.placed_ships ∧
          (fire_at b row col).2.1 = none) ∧
        (∀ pre s1 post, b.placed_ships = pre ++ s1 :: post →
          (row.toNat, col.toNat) ∈ s1.positions →
          (∀ s ∈ pre, (row.toNat, col.toNat) ∉ s.positions) →
          (fire_at b row col).2.2.placed_ships =
            pre ++ (⟨s1.name, s1.positions.erase (row.toNat, col.toNat)⟩ : Ship) :: post ∧
          (fire_at b row col).2.1 =
            (if s1.positions.erase (row.toNat, col.toNat) = ∅ ∧ s1.name ≠ ""
             then some s1.name else none)))) := by
  by_cases hb : row < 0 ∨ (b.size : ℤ) ≤ row ∨ col < 0 ∨ (b.size : ℤ) ≤ col
  · have heq : fire_at b row col = (.invalid, none, b) := by
      unfold fire_at; rw [if_pos hb]
    exact ⟨by rw [heq]; simpa using hb, fun hin => absurd hb hin⟩
  · have hbounds : 0 ≤ row ∧ row < (b.size : ℤ) ∧ 0 ≤ col ∧ col < (b.size : ℤ) := by
      push_neg at hb; exact ⟨hb.1, hb.2.1, hb.2.2.1, hb.2.2.2⟩
    have hr : row.toNat < b.size := by omega
    have hc : col.toNat < b.size := by omega
    by_cases hS : cellAt b.hidden_grid row.toNat col.toNat = 'S'
    · have heq : fire_at b row col =
          (.hit,
           (match (markHitAndCheckSunk b.placed_ships (row.toNat, col.toNat)).2 with
            | some nm => if nm = "" then none else some nm
            | none => none),
           { b with hidden_grid := setCell b.hidden_grid row.toNat col.toNat 'X'
                    display_grid := setCell b.display_grid row.toNat col.toNat 'X'
                    placed_ships :=
                      (markHitAndCheckSunk b.placed_ships (row.toNat, col.toNat)).1 }) := by
        unfold fire_at; rw [if_neg hb, if_pos hS]
      refine ⟨by rw [heq]; simpa using hb, fun _ => ?_⟩
      refine ⟨by rw [heq]; simp [hS], by rw [heq]; simp [hS], fun hdot => ?_, ?_, fun _ => ?_⟩
      · rw [hdot] at hS; exact absurd hS (by decide)
      · rw [heq]; simp [hS]
      · refine ⟨?_, ?_, fun hno => ?_, fun pre s1 post hdec hmem hpre => ?_⟩
        · rw [heq]; exact cellAt_setCell_self hWFh hr hc 'X'
        · rw [heq]; exact cellAt_setCell_self hWFd hr hc 'X'
        · have hmk := markHit_not_mem b.placed_ships (row.toNat, col.toNat) hno
          rw [heq]
          simp [hmk]
        · have hmk := markHit_first pre s1 post (row.toNat, col.toNat) hmem hpre
          rw [heq]
          simp only [hdec, hmk]
          by_cases hcard : (s1.positions.erase (row.toNat, col.toNat)).card = 0
          · have hempty : s1.positions.erase (row.toNat, col.toNat) = ∅ :=
              Finset.card_eq_zero.mp hcard
            by_cases hname : s1.name = "" <;> simp [hcard, hempty, hname]
          · have hne : ¬ s1.positions.erase (row.toNat, col.toNat) = ∅ :=
              fun hh => hcard (by rw [hh]; simp)
            simp [hcard, hne]
    · by_cases hdot : cellAt b.hidden_grid row.toNat col.toNat = '.'
      · have heq : fire_at b row col =
            (.miss, none,
             { b with hidden_grid := setCell b.hidden_grid row.toNat col.toNat 'o'
                      display_grid := setCell b.display_grid row.toNat col.toNat 'o' }) := by
          unfold fire_at; rw [if_neg hb, if_neg hS, if_pos hdot]
        refine ⟨by rw [heq]; simpa using hb, fun _ => ?_⟩
        refine ⟨by rw [heq]; simp [hdot],
          by rw [heq]; simp [hdot], fun _ => ?_, by rw [heq]; simp [hS], fun hS' => absurd hS' hS⟩
        constructor
        · rw [heq]; exact cellAt_setCell_self hWFh hr hc 'o'
        · rw [heq]; exact cellAt_setCell_self hWFd hr hc 'o'
      · have heq : fire_at b row col = (.already_shot, none, b) := by
          unfold fire_at; rw [if_neg hb, if_neg hS, if_neg hdot]
        have hXo : cellAt b.hidden_grid row.toNat col.toNat = 'X' ∨
            cellAt b.hidden_grid row.toNat col.toNat = 'o' := by
          rcases hcells row.toNat col.toNat hr hc with h | h | h | h
          · exact absurd h hdot
          · exact absurd h hS
          · exact Or.inl h
          · exact Or.inr h
        refine ⟨by rw [heq]; simpa using hb, fun _ => ?_⟩
        exact ⟨by rw [heq]; simpa using hXo,
          by rw [heq]; simp; intro h; exact hdot h,
          fun h => absurd h hdot,
          by rw [heq]; simp; intro h; exact hS h,
          fun h => absurd h hS⟩

/-- A concrete well-formed board for instantiating `fire_at_spec`. -/
def specWitnessBoard : Board :=
  ⟨2, [['S', '.'], ['.', '.']], [['.', '.'], ['.', '.']], [⟨"Destroyer", {(0, 0)}⟩]⟩

theorem fire_at_spec_witness :
    GridWF specWitnessBoard.size specWitnessBoard.hidden_grid ∧
    GridWF specWitnessBoard.size specWitnessBoard.display_grid ∧
    CellsOK specWitnessBoard ∧
    ((fire_at specWitnessBoard 0 0).1 = FireResult.hit ↔
      cellAt specWitnessBoard.hidden_grid 0 0 = 'S') := by
  have h1 : GridWF specWitnessBoard.size specWitnessBoard.hidden_grid := by
    unfold GridWF; decide
  have h2 : GridWF specWitnessBoard.size specWitnessBoard.display_grid := by
    unfold GridWF; decide
  have h3 : CellsOK specWitnessBoard := by
    unfold CellsOK
    intro r c hr hc
    have hr2 : r < 2 := hr
    have hc2 : c < 2 := hc
    interval_cases r <;> interval_cases c <;> decide
  have hin : ¬ ((0 : ℤ) < 0 ∨ (specWitnessBoard.size : ℤ) ≤ 0 ∨ (0 : ℤ) < 0 ∨
      (specWitnessBoard.size : ℤ) ≤ 0) := by decide
  exact ⟨h1, h2, h3, ((fire_at_spec specWitnessBoard 0 0 h1 h2 h3).2 hin).2.2.2.1⟩

/-! ## Placement lemmas -/

theorem getD_oob {α : Type} (l : List α) (i : ℕ) (d : α) (h : l.length ≤ i) :
    l.getD i d = d := by
  induction l generalizing i with
  | nil => simp
  | cons x xs ih =>
    cases i with
    | zero => simp at h
    | succ i => simpa using ih i (by simpa using h)

theorem getD_replicate {α : Type} (n i : ℕ) (x d : α) :
    (List.replicate n x).getD i d = if i < n then x else d := by
  induction n generalizing i with
  | zero => simp
  | succ n ih =>
    cases i with
    | zero => simp [List.replicate]
    | succ i =>
      rw [List.replicate_succ, List.getD_cons_succ, ih]
      simp [Nat.succ_lt_succ_iff]

theorem cellAt_replicate_grid (n r c : ℕ) :
    cellAt (List.replicate n (List.replicate n '.')) r c = '.' ∨
    cellAt (List.replicate n (List.replicate n '.')) r c = '?' := by
  unfold cellAt
  rw [getD_replicate]
  by_cases hr : r < n
  · rw [if_pos hr, getD_replicate]
    by_cases hc : c < n
    · exact Or.inl (if_pos hc)
    · exact Or.inr (if_neg hc)
  · rw [if_neg hr]
    simp

theorem inbounds_of_cellAt_ne {n : ℕ} {g : Grid} (hWF : GridWF n g) {r c : ℕ}
    (h : cellAt g r c ≠ '?') : r < n ∧ c < n := by
  unfold cellAt at h
  have hr : r < g.length := by
    by_contra hr
    exact h (by rw [getD_oob g r [] (le_of_not_lt hr)]; simp)
  have hc : c < (g.getD r []).length := by
    by_contra hc
    exact h (getD_oob _ c '?' (le_of_not_lt hc))
  exact ⟨hWF.1 ▸ hr, (hWF.2 _ (getD_mem g r [] hr)) ▸ hc⟩

/-- Effect on `cellAt` of marking a list of in-bounds cells `'S'`. -/
theorem cellAt_foldl_setS (cells : List (ℕ × ℕ)) (g : Grid)
    (hb : ∀ p ∈ cells, p.1 < g.length ∧ p.2 < (g.getD p.1 []).length) (r c : ℕ) :
    cellAt (cells.foldl (fun gg p => setCell gg p.1 p.2 'S') g) r c =
      if (r, c) ∈ cells then 'S' else cellAt g r c := by
  induction cells generalizing g with
  | nil => simp
  | cons q cells ih =>
    have hq := hb q (List.mem_cons_self q cells)
    have hb' : ∀ p ∈ cells, p.1 < (setCell g q.1 q.2 'S').length ∧
        p.2 < ((setCell g q.1 q.2 'S').getD p.1 []).length := by
      intro p hp
      rw [length_setCell, length_getD_setCell]
      exact hb p (List.mem_cons_of_mem q hp)
    rw [List.foldl_cons, ih (setCell g q.1 q.2 'S') hb']
    by_cases hmem : (r, c) ∈ cells
    · simp [hmem]
    · rw [if_neg hmem, if_congr (Iff.rfl) rfl rfl]
      by_cases hqrc : q = (r, c)
      · subst hqrc
        rw [if_pos (List.mem_cons_self _ _), cellAt_setCell,
          if_pos ⟨rfl, rfl, hq.1, hq.2⟩]
      · rw [if_neg (by
          intro hmem'
          rcases List.mem_cons.mp hmem' with heq | hmem''
          · exact hqrc heq.symm
          · exact hmem hmem'')]
        exact cellAt_setCell_ne g q.1 q.2 'S'
          (fun hh => hqrc (Prod.ext hh.1 hh.2))

theorem gridWF_foldl_setS {n : ℕ} (cells : List (ℕ × ℕ)) {g : Grid} (h : GridWF n g) :
    GridWF n (cells.foldl (fun gg p => setCell gg p.1 p.2 'S') g) := by
  induction cells generalizing g with
  | nil => exact h
  | cons q cells ih => exact ih (gridWF_setCell h q.1 q.2 'S')

/-- What `can_place_ship = true` yields about the covered cells. -/
theorem can_place_ship_cells {b : Board} {n : ℕ} (hsize : b.size = n)
    (hWF : GridWF n b.hidden_grid) {row col sz ori : ℕ}
    (h : can_place_ship b row col sz ori = true) :
    ∀ p ∈ shipCells row col sz ori,
      cellAt b.hidden_grid p.1 p.2 = '.' ∧ p.1 < n ∧ p.2 < n := by
  intro p hp
  unfold can_place_ship at h
  unfold shipCells at hp
  by_cases hori : ori = 0
  · rw [if_pos hori] at h
    rw [if_pos hori] at hp
    obtain ⟨k, hk, rfl⟩ := by
      simpa using hp
    have hall := (Bool.and_eq_true _ _).mp h
    have hdot : cellAt b.hidden_grid row (col + k) = '.' := by
      have := List.all_eq_true.mp hall.2 k (by simpa using hk)
      simpa using this
    refine ⟨hdot, ?_, ?_⟩
    · exact ((inbounds_of_cellAt_ne hWF (by rw [hdot]; decide))).1
    · have hle : col + sz ≤ b.size := by simpa using hall.1
      omega
  · rw [if_neg hori] at h
    rw [if_neg hori] at hp
    obtain ⟨k, hk, rfl⟩ := by
      simpa using hp
    have hall := (Bool.and_eq_true _ _).mp h
    have hdot : cellAt b.hidden_grid (row + k) col = '.' := by
      have := List.all_eq_true.mp hall.2 k (by simpa using hk)
      simpa using this
    refine ⟨hdot, ?_, ?_⟩
    · have hle : row + sz ≤ b.size := by simpa using hall.1
      omega
    · exact ((inbounds_of_cellAt_ne hWF (by rw [hdot]; decide))).2

theorem placedInv_placeShip {n : ℕ} {b : Board} (h : PlacedInv n b) (p : Placement) :
    PlacedInv n (placeShip b p) := by
  unfold placeShip
  by_cases hcan : can_place_ship b p.row p.col p.len p.orientation
  swap
  · rw [if_neg hcan]; exact h
  rw [if_pos hcan]
  obtain ⟨hsize, hWFh, hWFd, hiff, hdisj⟩ := h
  have hcells := can_place_ship_cells hsize hWFh hcan
  have hb : ∀ q ∈ shipCells p.row p.col p.len p.orientation,
      q.1 < b.hidden_grid.length ∧ q.2 < (b.hidden_grid.getD q.1 []).length := by
    intro q hq
    obtain ⟨-, h1, h2⟩ := hcells q hq
    refine ⟨by rw [hWFh.1]; exact h1, ?_⟩
    rw [hWFh.2 _ (getD_mem _ _ _ (by rw [hWFh.1]; exact h1))]
    exact h2
  refine ⟨by simpa [do_place_ship] using hsize, ?_, by simpa [do_place_ship] using hWFd,
    ?_, ?_⟩
  · exact gridWF_foldl_setS _ hWFh
  · intro q
    show cellAt ((shipCells p.row p.col p.len p.orientation).foldl
        (fun gg pp => setCell gg pp.1 pp.2 'S') b.hidden_grid) q.1 q.2 = 'S' ↔ _
    rw [cellAt_foldl_setS _ _ hb]
    by_cases hmem : (q.1, q.2) ∈ shipCells p.row p.col p.len p.orientation
    · simp only [if_pos hmem, true_iff]
      refine ⟨⟨p.shipName, (shipCells p.row p.col p.len p.orientation).toFinset⟩,
        by simp [do_place_ship], ?_⟩
      simpa using hmem
    · rw [if_neg hmem]
      rw [hiff q]
      constructor
      · rintro ⟨s, hs, hqs⟩
        refine ⟨s, ?_, hqs⟩
        simp only [do_place_ship, List.mem_append]
        exact Or.inl hs
      · rintro ⟨s, hs, hqs⟩
        have hs' : s ∈ b.placed_ships ∨
            s = (⟨p.shipName,
              (shipCells p.row p.col p.len p.orientation).toFinset⟩ : Ship) := by
          simpa [do_place_ship] using hs
        rcases hs' with hs' | rfl
        · exact ⟨s, hs', hqs⟩
        · exact absurd (by simpa using hqs) hmem
  · show ShipsDisjoint (b.placed_ships ++ [_])
    unfold ShipsDisjoint
    rw [List.pairwise_append]
    refine ⟨hdisj, List.pairwise_singleton _ _, ?_⟩
    intro s hs t ht q hqs
    rcases List.mem_singleton.mp ht with rfl
    intro hqt
    have hS : cellAt b.hidden_grid q.1 q.2 = 'S' := (hiff q).mpr ⟨s, hs, hqs⟩
    have hdot : cellAt b.hidden_grid q.1 q.2 = '.' := by
      obtain ⟨hd, -, -⟩ := hcells q (by simpa [do_place_ship] using hqt)
      exact hd
    rw [hS] at hdot
    exact absurd hdot (by decide)

theorem placedInv_mkBoard (n : ℕ) : PlacedInv n (mkBoard n) := by
  refine ⟨rfl, gridWF_mkBoard n, gridWF_mkBoard n, ?_, List.Pairwise.nil⟩
  intro q
  constructor
  · intro hS
    rcases cellAt_replicate_grid n q.1 q.2 with h | h <;>
      · rw [show (mkBoard n).hidden_grid = List.replicate n (List.replicate n '.') from rfl]
          at hS
        rw [h] at hS
        exact absurd hS (by decide)
  · rintro ⟨s, hs, -⟩
    simp [mkBoard] at hs

theorem placedInv_applyPlacements (n : ℕ) (ps : List Placement) :
    PlacedInv n (applyPlacements (mkBoard n) ps) := by
  suffices hgen : ∀ (ps : List Placement) (b : Board), PlacedInv n b →
      PlacedInv n (applyPlacements b ps) from
    hgen ps (mkBoard n) (placedInv_mkBoard n)
  intro ps
  induction ps with
  | nil => exact fun b h => h
  | cons p ps ih =>
    intro b h
    exact ih _ (placedInv_placeShip h p)

/-! ## Fire invariant and C4 -/

theorem mem_initCells {b : Board} {p : ℕ × ℕ} :
    p ∈ initCells b ↔ ∃ s ∈ b.placed_ships, p ∈ s.positions := by
  unfold initCells
  induction b.placed_ships with
  | nil => simp
  | cons s rest ih => simp [List.foldr_cons, Finset.mem_union, ih]

theorem fireInv_of_placedInv {n : ℕ} {b : Board} (h : PlacedInv n b) :
    FireInv n (initCells b) b := by
  obtain ⟨hsize, hWFh, hWFd, hiff, hdisj⟩ := h
  refine ⟨hsize, hWFh, hWFd, hiff, ?_, ?_, hdisj⟩
  · intro p hp
    exact Or.inl ((hiff p).mpr (mem_initCells.mp hp))
  · intro s hs p hp
    exact mem_initCells.mpr ⟨s, hs, hp⟩

theorem fireInv_fire_at {n : ℕ} {I : Finset (ℕ × ℕ)} {b : Board} (h : FireInv n I b)
    (row col : ℤ) : FireInv n I (fire_at b row col).2.2 := by
  obtain ⟨hsize, hWFh, hWFd, hiff, hSX, hsub, hdisj⟩ := h
  subst hsize
  unfold fire_at
  split_ifs with hb hS hdot
  · exact ⟨rfl, hWFh, hWFd, hiff, hSX, hsub, hdisj⟩
  · -- hit branch
    push_neg at hb
    have hr : row.toNat < b.size := by omega
    have hc : col.toNat < b.size := by omega
    have hex : ∃ s ∈ b.placed_ships, (row.toNat, col.toNat) ∈ s.positions :=
      (hiff (row.toNat, col.toNat)).mp hS
    obtain ⟨pre, s1, post, hdec, hmem, hpre⟩ := exists_first_ship _ _ hex
    have hmk := markHit_first pre s1 post (row.toNat, col.toNat) hmem hpre
    have hships : (markHitAndCheckSunk b.placed_ships (row.toNat, col.toNat)).1 =
        pre ++ (⟨s1.name, s1.positions.erase (row.toNat, col.toNat)⟩ : Ship) :: post := by
      rw [hdec, hmk]
    have hdisj' : List.Pairwise
        (fun s t => ∀ q : ℕ × ℕ, q ∈ s.positions → q ∉ t.positions)
        (pre ++ s1 :: post) := by
      rw [← hdec]; exact hdisj
    rw [List.pairwise_append, List.pairwise_cons] at hdisj'
    obtain ⟨hdpre, ⟨hs1post, hdpost⟩, hdcross⟩ := hdisj'
    have hqpost : ∀ t ∈ post, (row.toNat, col.toNat) ∉ t.positions :=
      fun t ht => hs1post t ht (row.toNat, col.toNat) hmem
    refine ⟨rfl, gridWF_setCell hWFh _ _ _, gridWF_setCell hWFd _ _ _, ?_, ?_, ?_, ?_⟩
    · intro p
      show cellAt (setCell b.hidden_grid row.toNat col.toNat 'X') p.1 p.2 = 'S' ↔ _
      rw [hships]
      by_cases hpq : p = (row.toNat, col.toNat)
      · subst hpq
        rw [cellAt_setCell_self hWFh hr hc]
        constructor
        · intro hXS; exact absurd hXS (by decide)
        · rintro ⟨s, hs, hps⟩
          rcases List.mem_append.mp hs with hs' | hs'
          · exact (hpre s hs' hps).elim
          · rcases List.mem_cons.mp hs' with rfl | hs''
            · exact ((Finset.mem_erase.mp hps).1 rfl).elim
            · exact (hqpost s hs'' hps).elim
      · rw [cellAt_setCell_ne b.hidden_grid _ _ 'X'
          (fun hh => hpq (Prod.ext hh.1.symm hh.2.symm)), hiff p, hdec]
        constructor
        · rintro ⟨s, hs, hps⟩
          rcases List.mem_append.mp hs with hs' | hs'
          · exact ⟨s, List.mem_append_left _ hs', hps⟩
          · rcases List.mem_cons.mp hs' with rfl | hs''
            · exact ⟨⟨s.name, s.positions.erase (row.toNat, col.toNat)⟩,
                List.mem_append_right _ (List.mem_cons_self _ _),
                Finset.mem_erase.mpr ⟨hpq, hps⟩⟩
            · exact ⟨s, List.mem_append_right _ (List.mem_cons_of_mem _ hs''), hps⟩
        · rintro ⟨s, hs, hps⟩
          rcases List.mem_append.mp hs with hs' | hs'
          · exact ⟨s, List.mem_append_left _ hs', hps⟩
          · rcases List.mem_cons.mp hs' with rfl | hs''
            · exact ⟨s1, List.mem_append_right _ (List.mem_cons_self _ _),
                (Finset.mem_erase.mp hps).2⟩
            · exact ⟨s, List.mem_append_right _ (List.mem_cons_of_mem _ hs''), hps⟩
    · intro p hp
      by_cases hpq : p = (row.toNat, col.toNat)
      · subst hpq
        exact Or.inr (cellAt_setCell_self hWFh hr hc 'X')
      · show cellAt (setCell b.hidden_grid row.toNat col.toNat 'X') p.1 p.2 = 'S' ∨
          cellAt (setCell b.hidden_grid row.toNat col.toNat 'X') p.1 p.2 = 'X'
        rw [cellAt_setCell_ne b.hidden_grid _ _ 'X'
          (fun hh => hpq (Prod.ext hh.1.symm hh.2.symm))]
        exact hSX p hp
    · intro s hs p hp
      rw [hships] at hs
      rcases List.mem_append.mp hs with hs' | hs'
      · exact hsub s (by rw [hdec]; exact List.mem_append_left _ hs') p hp
      · rcases List.mem_cons.mp hs' with rfl | hs''
        · exact hsub s1
            (by rw [hdec]; exact List.mem_append_right _ (List.mem_cons_self _ _)) p
            (Finset.mem_erase.mp hp).2
        · exact hsub s
            (by rw [hdec]; exact List.mem_append_right _ (List.mem_cons_of_mem _ hs'')) p hp
    · show ShipsDisjoint (markHitAndCheckSunk b.placed_ships (row.toNat, col.toNat)).1
      rw [hships]
      unfold ShipsDisjoint
      rw [List.pairwise_append, List.pairwise_cons]
      refine ⟨hdpre, ⟨?_, hdpost⟩, ?_⟩
      · intro t ht p hp
        exact hs1post t ht p (Finset.mem_erase.mp hp).2
      · intro a ha t ht p hpa
        rcases List.mem_cons.mp ht with rfl | ht'
        · exact fun hpt =>
            hdcross a ha s1 (List.mem_cons_self _ _) p hpa (Finset.mem_erase.mp hpt).2
        · exact hdcross a ha t (List.mem_cons_of_mem _ ht') p hpa
  · -- miss branch
    push_neg at hb
    have hr : row.toNat < b.size := by omega
    have hc : col.toNat < b.size := by omega
    refine ⟨rfl, gridWF_setCell hWFh _ _ _, gridWF_setCell hWFd _ _ _, ?_, ?_, hsub, hdisj⟩
    · intro p
      show cellAt (setCell b.hidden_grid row.toNat col.toNat 'o') p.1 p.2 = 'S' ↔ _
      by_cases hpq : p = (row.toNat, col.toNat)
      · subst hpq
        rw [cellAt_setCell_self hWFh hr hc]
        constructor
        · intro hoS; exact absurd hoS (by decide)
        · intro hex
          have h2 : cellAt b.hidden_grid row.toNat col.toNat = 'S' := (hiff _).mpr hex
          rw [hdot] at h2
          exact absurd h2 (by decide)
      · rw [cellAt_setCell_ne b.hidden_grid _ _ 'o'
          (fun hh => hpq (Prod.ext hh.1.symm hh.2.symm))]
        exact hiff p
    · intro p hp
      by_cases hpq : p = (row.toNat, col.toNat)
      · exfalso
        subst hpq
        rcases hSX _ hp with h2 | h2 <;>
          · have h3 : cellAt b.hidden_grid row.toNat col.toNat = _ := h2
            rw [hdot] at h3
            exact absurd h3 (by decide)
      · show cellAt (setCell b.hidden_grid row.toNat col.toNat 'o') p.1 p.2 = 'S' ∨
          cellAt (setCell b.hidden_grid row.toNat col.toNat 'o') p.1 p.2 = 'X'
        rw [cellAt_setCell_ne b.hidden_grid _ _ 'o'
          (fun hh => hpq (Prod.ext hh.1.symm hh.2.symm))]
        exact hSX p hp
  · exact ⟨rfl, hWFh, hWFd, hiff, hSX, hsub, hdisj⟩

theorem fireInv_fireMany {n : ℕ} {I : Finset (ℕ × ℕ)} (shots : List (ℤ × ℤ)) {b : Board}
    (h : FireInv n I b) : FireInv n I (fireMany b shots) := by
  induction shots generalizing b with
  | nil => exact h
  | cons q shots ih =>
    show FireInv n I (fireMany (fire_at b q.1 q.2).2.2 shots)
    exact ih (fireInv_fire_at h q.1 q.2)

/-- C4: after placing ships through guarded placements on a fresh board and
firing any finite sequence of shots, `all_ships_sunk` holds iff every cell
recorded as `'S'` by the initial placements is now `'X'` on `hidden_grid`. -/
theorem all_ships_sunk_iff_initial_cells_hit (n : ℕ) (ps : List Placement)
    (shots : List (ℤ × ℤ)) :
    (all_ships_sunk (fireMany (applyPlacements (mkBoard n) ps) shots) = true) ↔
    (∀ p ∈ initCells (applyPlacements (mkBoard n) ps),
      cellAt (fireMany (applyPlacements (mkBoard n) ps) shots).hidden_grid p.1 p.2 = 'X') := by
  have hinv : FireInv n (initCells (applyPlacements (mkBoard n) ps))
      (fireMany (applyPlacements (mkBoard n) ps) shots) :=
    fireInv_fireMany shots (fireInv_of_placedInv (placedInv_applyPlacements n ps))
  obtain ⟨-, -, -, hiff, hSX, hsub, -⟩ := hinv
  constructor
  · intro hall p hp
    rcases hSX p hp with hS | hX
    · exfalso
      obtain ⟨s, hs, hps⟩ := (hiff p).mp hS
      have hall' : ∀ t ∈ (fireMany (applyPlacements (mkBoard n) ps) shots).placed_ships,
          t.positions = ∅ := by
        simpa [all_ships_sunk, Finset.card_eq_zero] using hall
      rw [hall' s hs] at hps
      simp at hps
    · exact hX
  · intro hX
    have hempty : ∀ s ∈ (fireMany (applyPlacements (mkBoard n) ps) shots).placed_ships,
        s.positions = ∅ := by
      intro s hs
      by_contra hne
      obtain ⟨p, hp⟩ := Finset.nonempty_iff_ne_empty.mpr hne
      have hpI := hsub s hs p hp
      have hpS := (hiff p).mpr ⟨s, hs, hp⟩
      have hpX := hX p hpI
      rw [hpS] at hpX
      exact absurd hpX (by decide)
    simp only [all_ships_sunk, List.all_eq_true]
    intro s hs
    simp [hempty s hs]

/-! ## Display invariant and C5 -/

theorem dispInv_mkBoard (n : ℕ) : DispInv n (mkBoard n) := by
  refine ⟨rfl, gridWF_mkBoard n, gridWF_mkBoard n, ?_⟩
  intro r c hr hc
  have hdoth : cellAt (mkBoard n).hidden_grid r c = '.' := cellAt_mkBoard n r c hr hc
  have hdotd : cellAt (mkBoard n).display_grid r c = '.' := cellAt_mkBoard n r c hr hc
  unfold DisplayCellOK
  rw [hdoth, hdotd]
  exact ⟨Iff.rfl, Iff.rfl, fun _ _ => rfl⟩

theorem dispInv_placeShip {n : ℕ} {b : Board} (h : DispInv n b) (p : Placement) :
    DispInv n (placeShip b p) := by
  unfold placeShip
  by_cases hcan : can_place_ship b p.row p.col p.len p.orientation
  swap
  · rw [if_neg hcan]; exact h
  rw [if_pos hcan]
  obtain ⟨hsize, hWFh, hWFd, hok⟩ := h
  have hplc := can_place_ship_cells hsize hWFh hcan
  have hb : ∀ q ∈ shipCells p.row p.col p.len p.orientation,
      q.1 < b.hidden_grid.length ∧ q.2 < (b.hidden_grid.getD q.1 []).length := by
    intro q hq
    obtain ⟨-, h1, h2⟩ := hplc q hq
    refine ⟨by rw [hWFh.1]; exact h1, ?_⟩
    rw [hWFh.2 _ (getD_mem _ _ _ (by rw [hWFh.1]; exact h1))]
    exact h2
  refine ⟨by simpa [do_place_ship] using hsize, gridWF_foldl_setS _ hWFh,
    by simpa [do_place_ship] using hWFd, ?_⟩
  intro r c hr hc
  have hfold := cellAt_foldl_setS (shipCells p.row p.col p.len p.orientation)
    b.hidden_grid hb r c
  obtain ⟨hX, ho, h3⟩ := hok r c hr hc
  show (cellAt b.display_grid r c = 'X' ↔
        cellAt ((shipCells p.row p.col p.len p.orientation).foldl
          (fun gg pp => setCell gg pp.1 pp.2 'S') b.hidden_grid) r c = 'X') ∧
      (cellAt b.display_grid r c = 'o' ↔
        cellAt ((shipCells p.row p.col p.len p.orientation).foldl
          (fun gg pp => setCell gg pp.1 pp.2 'S') b.hidden_grid) r c = 'o') ∧
      (cellAt b.display_grid r c ≠ 'X' → cellAt b.display_grid r c ≠ 'o' →
        cellAt b.display_grid r c = '.')
  rw [hfold]
  by_cases hmem : (r, c) ∈ shipCells p.row p.col p.len p.orientation
  · have hhid0 : cellAt b.hidden_grid r c = '.' := (hplc (r, c) hmem).1
    have hdisp0 : cellAt b.display_grid r c = '.' := by
      apply h3
      · intro hdX
        have h2 := hX.mp hdX
        rw [hhid0] at h2
        exact absurd h2 (by decide)
      · intro hdo
        have h2 := ho.mp hdo
        rw [hhid0] at h2
        exact absurd h2 (by decide)
    rw [if_pos hmem, hdisp0]
    exact ⟨by decide, by decide, fun _ _ => rfl⟩
  · rw [if_neg hmem]
    exact ⟨hX, ho, h3⟩

theorem dispInv_fire_at {n : ℕ} {b : Board} (h : DispInv n b) (row col : ℤ) :
    DispInv n (fire_at b row col).2.2 := by
  obtain ⟨hsize, hWFh, hWFd, hok⟩ := h
  subst hsize
  unfold fire_at
  split_ifs with hb hS hdot
  · exact ⟨rfl, hWFh, hWFd, hok⟩
  · push_neg at hb
    have hr : row.toNat < b.size := by omega
    have hc : col.toNat < b.size := by omega
    refine ⟨rfl, gridWF_setCell hWFh _ _ _, gridWF_setCell hWFd _ _ _, ?_⟩
    intro r c hrn hcn
    show (cellAt (setCell b.display_grid row.toNat col.toNat 'X') r c = 'X' ↔
          cellAt (setCell b.hidden_grid row.toNat col.toNat 'X') r c = 'X') ∧
        (cellAt (setCell b.display_grid row.toNat col.toNat 'X') r c = 'o' ↔
          cellAt (setCell b.hidden_grid row.toNat col.toNat 'X') r c = 'o') ∧
        (cellAt (setCell b.display_grid row.toNat col.toNat 'X') r c ≠ 'X' →
          cellAt (setCell b.display_grid row.toNat col.toNat 'X') r c ≠ 'o' →
          cellAt (setCell b.display_grid row.toNat col.toNat 'X') r c = '.')
    by_cases hpq : row.toNat = r ∧ col.toNat = c
    · obtain ⟨h1, h2⟩ := hpq
      subst h1
      subst h2
      rw [cellAt_setCell_self hWFh hr hc, cellAt_setCell_self hWFd hr hc]
      exact ⟨Iff.rfl, Iff.rfl, fun hne _ => absurd rfl hne⟩
    · rw [cellAt_setCell_ne b.display_grid _ _ 'X' hpq,
        cellAt_setCell_ne b.hidden_grid _ _ 'X' hpq]
      exact hok r c hrn hcn
  · push_neg at hb
    have hr : row.toNat < b.size := by omega
    have hc : col.toNat < b.size := by omega
    refine ⟨rfl, gridWF_setCell hWFh _ _ _, gridWF_setCell hWFd _ _ _, ?_⟩
    intro r c hrn hcn
    show (cellAt (setCell b.display_grid row.toNat col.toNat 'o') r c = 'X' ↔
          cellAt (setCell b.hidden_grid row.toNat col.toNat 'o') r c = 'X') ∧
        (cellAt (setCell b.display_grid row.toNat col.toNat 'o') r c = 'o' ↔
          cellAt (setCell b.hidden_grid row.toNat col.toNat 'o') r c = 'o') ∧
        (cellAt (setCell b.display_grid row.toNat col.toNat 'o') r c ≠ 'X' →
          cellAt (setCell b.display_grid row.toNat col.toNat 'o') r c ≠ 'o' →
          cellAt (setCell b.display_grid row.toNat col.toNat 'o') r c = '.')
    by_cases hpq : row.toNat = r ∧ col.toNat = c
    · obtain ⟨h1, h2⟩ := hpq
      subst h1
      subst h2
      rw [cellAt_setCell_self hWFh hr hc, cellAt_setCell_self hWFd hr hc]
      exact ⟨Iff.rfl, Iff.rfl, fun _ hno => absurd rfl hno⟩
    · rw [cellAt_setCell_ne b.display_grid _ _ 'o' hpq,
        cellAt_setCell_ne b.hidden_grid _ _ 'o' hpq]
      exact hok r c hrn hcn
  · exact ⟨rfl, hWFh, hWFd, hok⟩

theorem dispInv_applyActions {n : ℕ} (acts : List GameAction) {b : Board}
    (h : DispInv n b) : DispInv n (applyActions b acts) := by
  induction acts generalizing b with
  | nil => exact h
  | cons a acts ih =>
    show DispInv n (applyActions (applyAction b a) acts)
    apply ih
    cases a with
    | place p => exact dispInv_placeShip h p
    | fire r c => exact dispInv_fire_at h r c

/-- C5: on every board reachable from a fresh board by guarded placements and
shots, each in-bounds display cell shows `'X'` iff the hidden cell is `'X'`,
`'o'` iff it is `'o'`, and `'.'` otherwise — in particular the display grid
never shows the ship marker `'S'`. -/
theorem display_grid_spec (n : ℕ) (acts : List GameAction) (r c : ℕ)
    (hr : r < n) (hc : c < n) :
    (cellAt (applyActions (mkBoard n) acts).display_grid r c = 'X' ↔
      cellAt (applyActions (mkBoard n) acts).hidden_grid r c = 'X') ∧
    (cellAt (applyActions (mkBoard n) acts).display_grid r c = 'o' ↔
      cellAt (applyActions (mkBoard n) acts).hidden_grid r c = 'o') ∧
    (cellAt (applyActions (mkBoard n) acts).hidden_grid r c ≠ 'X' →
      cellAt (applyActions (mkBoard n) acts).hidden_grid r c ≠ 'o' →
      cellAt (applyActions (mkBoard n) acts).display_grid r c = '.') ∧
    cellAt (applyActions (mkBoard n) acts).display_grid r c ≠ 'S' := by
  obtain ⟨-, -, -, hok⟩ := dispInv_applyActions acts (dispInv_mkBoard n)
  obtain ⟨hX, ho, h3⟩ := hok r c hr hc
  refine ⟨hX, ho, fun hh1 hh2 => ?_, ?_⟩
  · apply h3
    · intro hdX; exact hh1 (hX.mp hdX)
    · intro hdo; exact hh2 (ho.mp hdo)
  · intro hdS
    by_cases hdX : cellAt (applyActions (mkBoard n) acts).display_grid r c = 'X'
    · rw [hdS] at hdX; exact absurd hdX (by decide)
    · by_cases hdo : cellAt (applyActions (mkBoard n) acts).display_grid r c = 'o'
      · rw [hdS] at hdo; exact absurd hdo (by decide)
      · have hdd := h3 hdX hdo
        rw [hdS] at hdd
        exact absurd hdd (by decide)

theorem display_grid_spec_witness :
    ((0 : ℕ) < 1 ∧ (0 : ℕ) < 1) ∧
    cellAt (applyActions (mkBoard 1) []).display_grid 0 0 ≠ 'S' :=
  ⟨⟨by decide, by decide⟩,
   (display_grid_spec 1 [] 0 0 (by decide) (by decide)).2.2.2⟩

/-! ## Protocol lemmas -/

theorem ctrXor_length (ks : ℕ → ℕ) (i : ℕ) (l : List ℕ) :
    (ctrXor ks i l).length = l.length := by
  induction l generalizing i with
  | nil => rfl
  | cons b l ih => simp [ctrXor, ih]

theorem ctrXor_ctrXor (ks : ℕ → ℕ) (i : ℕ) (l : List ℕ) :
    ctrXor ks i (ctrXor ks i l) = l := by
  induction l generalizing i with
  | nil => rfl
  | cons b l ih =>
    simp only [ctrXor, ih]
    rw [Nat.xor_assoc, Nat.xor_self, Nat.xor_zero]

theorem calculate_checksum_lt (data : List ℕ) : calculate_checksum data < 2 ^ 32 := by
  unfold calculate_checksum
  exact Nat.mod_lt _ (by norm_num)

theorem decode_header_fields (magic seq ptype dlen chk : ℕ)
    (hmagic : magic < 2 ^ 32) (hseq : seq < 2 ^ 32) (hdlen : dlen < 2 ^ 32)
    (hchk : chk < 2 ^ 32) :
    decode_header (toBytesBE4 magic ++ toBytesBE4 seq ++ [ptype] ++
      toBytesBE4 dlen ++ toBytesBE4 chk) =
      some (magic, seq, ptype, dlen, chk) := by
  simp only [decode_header, toBytesBE4, HEADER_SIZE, List.cons_append, List.nil_append,
    List.length_cons, List.length_nil]
  norm_num [List.take, List.drop, List.getD, fromBytesBE, List.foldl]
  refine ⟨?_, ?_, ?_, ?_⟩ <;> omega

theorem decode_header_create_packet (ks : Keystream) (ptype : ℕ)
    (payload iv : List ℕ) (ctr : ℕ) (hctr : ctr < 2 ^ 32)
    (hlen : 16 + payload.length < 2 ^ 32) :
    decode_header ((create_packet ks ptype payload iv ctr).1.take HEADER_SIZE) =
      some (MAGIC_NUMBER, ctr, ptype,
        IV_SIZE + (ctrXor (ks iv) 0 payload).length,
        calculate_checksum
          ((toBytesBE4 MAGIC_NUMBER ++ toBytesBE4 ctr ++ [ptype] ++
            toBytesBE4 (IV_SIZE + (ctrXor (ks iv) 0 payload).length)) ++ iv ++
            ctrXor (ks iv) 0 payload)) := by
  have htake : (create_packet ks ptype payload iv ctr).1.take HEADER_SIZE =
      toBytesBE4 MAGIC_NUMBER ++ toBytesBE4 ctr ++ [ptype] ++
        toBytesBE4 (IV_SIZE + (ctrXor (ks iv) 0 payload).length) ++
        toBytesBE4 (calculate_checksum
          ((toBytesBE4 MAGIC_NUMBER ++ toBytesBE4 ctr ++ [ptype] ++
            toBytesBE4 (IV_SIZE + (ctrXor (ks iv) 0 payload).length)) ++ iv ++
            ctrXor (ks iv) 0 payload)) := by
    show (((toBytesBE4 MAGIC_NUMBER ++ toBytesBE4 ctr ++ [ptype] ++
        toBytesBE4 (IV_SIZE + (ctrXor (ks iv) 0 payload).length)) ++
        toBytesBE4 (calculate_checksum _)) ++ (iv ++ ctrXor (ks iv) 0 payload)).take
        HEADER_SIZE = _
    rw [show (HEADER_SIZE : ℕ) = (((toBytesBE4 MAGIC_NUMBER ++ toBytesBE4 ctr ++ [ptype] ++
        toBytesBE4 (IV_SIZE + (ctrXor (ks iv) 0 payload).length)) ++
        toBytesBE4 (calculate_checksum
          ((toBytesBE4 MAGIC_NUMBER ++ toBytesBE4 ctr ++ [ptype] ++
            toBytesBE4 (IV_SIZE + (ctrXor (ks iv) 0 payload).length)) ++ iv ++
            ctrXor (ks iv) 0 payload))).length) from by simp [toBytesBE4, HEADER_SIZE],
      List.take_left]
  rw [htake]
  exact decode_header_fields MAGIC_NUMBER ctr ptype _ _ (by norm_num [MAGIC_NUMBER]) hctr
    (by have := ctrXor_length (ks iv) 0 payload; simp only [IV_SIZE]; omega)
    (calculate_checksum_lt _)

theorem fromBytesBE_toBytesBE4 (n : ℕ) (h : n < 2 ^ 32) :
    fromBytesBE (toBytesBE4 n) = n := by
  simp only [fromBytesBE, toBytesBE4, List.foldl]
  omega

theorem packet_split (A B C D : List ℕ) (hA : A.length = 13) (hB : B.length = 4) :
    (A ++ B ++ C ++ D).take HEADER_SIZE = A ++ B ∧
    (A ++ B ++ C ++ D).drop HEADER_SIZE = C ++ D ∧
    (A ++ B ++ C ++ D).take 13 = A ∧
    (A ++ B ++ C ++ D).length = 17 + (C.length + D.length) := by
  have h1 : A ++ B ++ C ++ D = (A ++ B) ++ (C ++ D) := by simp [List.append_assoc]
  have h2 : A ++ B ++ C ++ D = A ++ (B ++ (C ++ D)) := by simp [List.append_assoc]
  refine ⟨?_, ?_, ?_, ?_⟩
  · rw [h1, show (HEADER_SIZE : ℕ) = (A ++ B).length from by
      simp [HEADER_SIZE, hA, hB], List.take_left]
  · rw [h1, show (HEADER_SIZE : ℕ) = (A ++ B).length from by
      simp [HEADER_SIZE, hA, hB], List.drop_left]
  · rw [h2, show (13 : ℕ) = A.length from hA.symm, List.take_left]
  · simp [hA, hB]
    omega


theorem verify_packet_create (ks : Keystream) (ptype : ℕ) (payload iv : List ℕ)
    (ctr : ℕ) (hctr : ctr < 2 ^ 32) (hiv : iv.length = 16)
    (hlen : 16 + payload.length < 2 ^ 32) :
    verify_packet (create_packet ks ptype payload iv ctr).1 =
      some ((MAGIC_NUMBER, ctr, ptype, IV_SIZE + (ctrXor (ks iv) 0 payload).length),
        iv ++ ctrXor (ks iv) 0 payload) := by
  have hencl : (ctrXor (ks iv) 0 payload).length = payload.length := ctrXor_length _ _ _
  obtain ⟨htake17, hdrop17, htake13, hlenpkt⟩ := packet_split
    (toBytesBE4 MAGIC_NUMBER ++ toBytesBE4 ctr ++ [ptype] ++
      toBytesBE4 (IV_SIZE + (ctrXor (ks iv) 0 payload).length))
    (toBytesBE4 (calculate_checksum
      ((toBytesBE4 MAGIC_NUMBER ++ toBytesBE4 ctr ++ [ptype] ++
        toBytesBE4 (IV_SIZE + (ctrXor (ks iv) 0 payload).length)) ++ iv ++
        ctrXor (ks iv) 0 payload)))
    iv (ctrXor (ks iv) 0 payload)
    (by simp [toBytesBE4]) (by simp [toBytesBE4])
  have hpkt : (create_packet ks ptype payload iv ctr).1 =
      (toBytesBE4 MAGIC_NUMBER ++ toBytesBE4 ctr ++ [ptype] ++
        toBytesBE4 (IV_SIZE + (ctrXor (ks iv) 0 payload).length)) ++
      toBytesBE4 (calculate_checksum
        ((toBytesBE4 MAGIC_NUMBER ++ toBytesBE4 ctr ++ [ptype] ++
          toBytesBE4 (IV_SIZE + (ctrXor (ks iv) 0 payload).length)) ++ iv ++
          ctrXor (ks iv) 0 payload)) ++
      iv ++ ctrXor (ks iv) 0 payload := rfl
  have hdec := decode_header_create_packet ks ptype payload iv ctr hctr hlen
  rw [hpkt] at hdec
  unfold verify_packet
  rw [hpkt, hlenpkt, hdec, htake13, hdrop17]
  rw [if_neg (show ¬ (17 + (iv.length + (ctrXor (ks iv) 0 payload).length) <
      HEADER_SIZE + IV_SIZE) from by
    simp only [HEADER_SIZE, IV_SIZE]
    omega)]
  simp only [ne_eq, not_true_eq_false, if_false]
  rw [if_neg (show ¬ ¬ (iv ++ ctrXor (ks iv) 0 payload).length =
      IV_SIZE + (ctrXor (ks iv) 0 payload).length from by
    simp [hiv, IV_SIZE])]
  rw [if_neg (show ¬ ¬ calculate_checksum
      ((toBytesBE4 MAGIC_NUMBER ++ toBytesBE4 ctr ++ [ptype] ++
        toBytesBE4 (IV_SIZE + (ctrXor (ks iv) 0 payload).length)) ++
        (iv ++ ctrXor (ks iv) 0 payload)) =
      calculate_checksum
        ((toBytesBE4 MAGIC_NUMBER ++ toBytesBE4 ctr ++ [ptype] ++
          toBytesBE4 (IV_SIZE + (ctrXor (ks iv) 0 payload).length)) ++ iv ++
          ctrXor (ks iv) 0 payload) from by
    simp [List.append_assoc])]

/-- C2: a packet produced by `create_packet` passes magic, length and checksum
verification and decrypts back to the original plaintext, with the original
packet type (and sequence number) in the decoded header. -/
theorem packet_roundtrip (ks : Keystream) (ptype : ℕ) (payload iv : List ℕ)
    (ctr : ℕ) (_hpt : ptype < 256) (hctr : ctr < 2 ^ 32) (hiv : iv.length = 16)
    (hlen : 16 + payload.length < 2 ^ 32) :
    receive_packet_decode ks (create_packet ks ptype payload iv ctr).1 =
      some ((MAGIC_NUMBER, ctr, ptype, payload.length), payload) := by
  have hencl : (ctrXor (ks iv) 0 payload).length = payload.length := ctrXor_length _ _ _
  simp only [receive_packet_decode,
    decode_header_create_packet ks ptype payload iv ctr hctr hlen,
    verify_packet_create ks ptype payload iv ctr hctr hiv hlen,
    show ¬ (IV_SIZE + (ctrXor (ks iv) 0 payload).length < IV_SIZE) from by omega,
    if_false,
    show (iv ++ ctrXor (ks iv) 0 payload).take IV_SIZE = iv from by
      rw [show (IV_SIZE : ℕ) = iv.length from hiv.symm]
      exact List.take_left _ _,
    show (iv ++ ctrXor (ks iv) 0 payload).drop IV_SIZE = ctrXor (ks iv) 0 payload from by
      rw [show (IV_SIZE : ℕ) = iv.length from hiv.symm]
      exact List.drop_left _ _,
    ctrXor_ctrXor, ctrXor_length]
  rw [if_neg (show ¬ IV_SIZE + payload.length < IV_SIZE from by omega)]

theorem packet_roundtrip_witness :
    ((3 : ℕ) < 256 ∧ (0 : ℕ) < 2 ^ 32 ∧ (List.replicate 16 0 : List ℕ).length = 16 ∧
      16 + ([65, 66] : List ℕ).length < 2 ^ 32) ∧
    receive_packet_decode (fun _ _ => 0)
        (create_packet (fun _ _ => 0) 3 [65, 66] (List.replicate 16 0) 0).1 =
      some ((MAGIC_NUMBER, 0, 3, 2), [65, 66]) :=
  ⟨⟨by decide, by decide, by decide, by decide⟩,
   packet_roundtrip (fun _ _ => 0) 3 [65, 66] (List.replicate 16 0) 0
     (by decide) (by decide) (by decide) (by decide)⟩

/-! ## C8: sequence numbers of consecutive packets -/

theorem seqOf_create_packet (ks : Keystream) (pt : ℕ) (payload iv : List ℕ)
    (ctr : ℕ) (hctr : ctr < 2 ^ 32) :
    seqOf (create_packet ks pt payload iv ctr).1 = ctr := by
  have h1 : (create_packet ks pt payload iv ctr).1 =
      toBytesBE4 MAGIC_NUMBER ++ (toBytesBE4 ctr ++
        ([pt] ++ (toBytesBE4 (IV_SIZE + (ctrXor (ks iv) 0 payload).length) ++
          (toBytesBE4 (calculate_checksum
            ((toBytesBE4 MAGIC_NUMBER ++ toBytesBE4 ctr ++ [pt] ++
              toBytesBE4 (IV_SIZE + (ctrXor (ks iv) 0 payload).length)) ++ iv ++
              ctrXor (ks iv) 0 payload)) ++
            (iv ++ ctrXor (ks iv) 0 payload))))) := by
    simp [create_packet, List.append_assoc]
  unfold seqOf
  rw [h1]
  rw [show (4 : ℕ) = (toBytesBE4 MAGIC_NUMBER).length from by simp [toBytesBE4],
    List.drop_left]
  rw [show ((toBytesBE4 MAGIC_NUMBER).length : ℕ) = (toBytesBE4 ctr).length from by
    simp [toBytesBE4], List.take_left]
  exact fromBytesBE_toBytesBE4 ctr hctr

/-- C8 (amended): consecutive packets carry sequence numbers that increase by
one modulo `2^32 − 1` (`0xFFFFFFFF`): after a packet with sequence number `s`,
the next packet carries `(s + 1) % (2^32 − 1)`, so the counter wraps from
`2^32 − 2` back to `0` and the value `2^32 − 1` itself is never used. -/
theorem consecutive_packets_seq (ks1 ks2 : Keystream) (pt1 pt2 : ℕ)
    (pl1 pl2 iv1 iv2 : List ℕ) (ctr : ℕ) (hctr : ctr < 0xFFFFFFFF) :
    seqOf (create_packet ks2 pt2 pl2 iv2 (create_packet ks1 pt1 pl1 iv1 ctr).2).1 =
      (seqOf (create_packet ks1 pt1 pl1 iv1 ctr).1 + 1) % 0xFFFFFFFF := by
  have h2 : (create_packet ks1 pt1 pl1 iv1 ctr).2 = (ctr + 1) % 0xFFFFFFFF := rfl
  rw [seqOf_create_packet ks1 pt1 pl1 iv1 ctr (by omega)]
  rw [h2, seqOf_create_packet ks2 pt2 pl2 iv2 _
    (lt_trans (Nat.mod_lt _ (by norm_num)) (by norm_num))]

theorem consecutive_packets_seq_witness :
    (0 : ℕ) < 0xFFFFFFFF ∧
    seqOf (create_packet (fun _ _ => 0) 1 [] (List.replicate 16 0)
        (create_packet (fun _ _ => 0) 1 [] (List.replicate 16 0) 0).2).1 =
      (seqOf (create_packet (fun _ _ => 0) 1 [] (List.replicate 16 0) 0).1 + 1) %
        0xFFFFFFFF :=
  ⟨by decide, consecutive_packets_seq (fun _ _ => 0) (fun _ _ => 0) 1 1 [] []
    (List.replicate 16 0) (List.replicate 16 0) 0 (by decide)⟩

/-- C8 counterexample: from counter state `2^32 − 2 = 4294967294` the packet
carries that sequence number, and the next packet carries `0`, not
`(4294967294 + 1) % 2^32 = 4294967295`: the counter wraps at `0xFFFFFFFF`
(that is, modulo `2^32 − 1`), not modulo `2^32`. -/
theorem seq_wrap_counterexample :
    seqOf (create_packet (fun _ _ => 0) 3 [] (List.replicate 16 0) 4294967294).1 =
      4294967294 ∧
    seqOf (create_packet (fun _ _ => 0) 3 [] (List.replicate 16 0)
        (create_packet (fun _ _ => 0) 3 [] (List.replicate 16 0) 4294967294).2).1 = 0 ∧
    (0 : ℕ) ≠ (4294967294 + 1) % 2 ^ 32 := by
  refine ⟨seqOf_create_packet _ _ _ _ _ (by norm_num), ?_, by norm_num⟩
  have h2 : (create_packet (fun _ _ => (0 : ℕ)) 3 [] (List.replicate 16 0)
      4294967294).2 = 0 := by
    show (4294967294 + 1) % 0xFFFFFFFF = 0
    norm_num
  rw [h2]
  exact seqOf_create_packet _ _ _ _ _ (by norm_num)

/-! ## C3: turn advancement in the two-player loop -/

/-- C3: in one iteration of the turn loop of `run_two_player_game` (guess
already received, not `quit`): an unparsable coordinate, or a shot answered
`already_shot` or `invalid`, keeps the same player to move; a `miss`, or a
`hit` that does not end the game, passes the turn to the opponent. -/
theorem turn_advance_spec (cur : Bool) (b : Board) (guess : String)
    (hquit : lowerStr guess ≠ "quit") :
    ((parse_coordinate guess).isOk = false →
      (turnStep cur b guess).1 = TurnOutcome.continueWith cur) ∧
    (∀ r c : ℕ, parse_coordinate guess = .ok (r, c) →
      (((fire_at b (r : ℤ) (c : ℤ)).1 = FireResult.already_shot ∨
        (fire_at b (r : ℤ) (c : ℤ)).1 = FireResult.invalid) →
        (turnStep cur b guess).1 = TurnOutcome.continueWith cur) ∧
      ((fire_at b (r : ℤ) (c : ℤ)).1 = FireResult.miss →
        (turnStep cur b guess).1 = TurnOutcome.continueWith (!cur)) ∧
      ((fire_at b (r : ℤ) (c : ℤ)).1 = FireResult.hit →
        all_ships_sunk (fire_at b (r : ℤ) (c : ℤ)).2.2 = false →
        (turnStep cur b guess).1 = TurnOutcome.continueWith (!cur))) := by
  unfold turnStep
  rw [if_neg hquit]
  constructor
  · intro hfail
    rcases hp : parse_coordinate guess with e | ⟨r, c⟩
    · rfl
    · rw [hp] at hfail
      simp [Except.isOk, Except.toBool] at hfail
  · intro r c hp
    refine ⟨?_, ?_, ?_⟩
    · intro hres
      rcases hres with h | h <;> simp [hp, h]
    · intro h
      simp [hp, h]
    · intro h hsunk
      simp [hp, h, hsunk]

theorem turn_advance_spec_witness :
    lowerStr "A1" ≠ "quit" ∧
    (turnStep true (mkBoard 1) "A1").1 = TurnOutcome.continueWith false := by
  have hq : lowerStr "A1" ≠ "quit" := by decide
  have hp : parse_coordinate "A1" = .ok (0, 0) := rfl
  have hm : (fire_at (mkBoard 1) ((0 : ℕ) : ℤ) ((0 : ℕ) : ℤ)).1 = FireResult.miss := by
    decide
  exact ⟨hq, ((turn_advance_spec true (mkBoard 1) "A1" hq).2 0 0 hp).2.1 hm⟩
